import Mathlib

/-!
Verification of the Prescriptivism client UI core (`src/Client/UI.cc`,
`pr.client.ui` / `pr.client.render.gl` module interfaces).

The development shallowly embeds the geometry resolver (`Position::relative`),
the text-edit cursor mapping (`TextEdit::draw` / `TextEdit::event_click`),
the screen refresh and tick protocols (`Screen::refresh` / `Screen::tick`),
and the card-group autoscale layout (`CardGroup::refresh`).

Machine integers (`i32`, `i16`) are modelled as `Int`; none of the verified
scenarios comes near the width of a 32-bit integer, so wrap-around is not
modelled.  C++ integer division truncates toward zero, which is `Int.tdiv`
(note that `/` on `Int` in Lean is Euclidean division and is therefore not
used to model C++ `/`).  The `f32` arithmetic used in `std::lerp` is modelled
as exact rational arithmetic whose result is truncated toward zero, matching
the surrounding `i32(...)` casts; a division by zero inside `std::lerp`
(which in C++ yields an infinity whose subsequent conversion to `i32` is
undefined behaviour) is modelled by an `Option` failure.
-/

-- =============================================================================
--  Geometry resolver (Position, Anchor)
-- =============================================================================

/-- Anchor as in `enum class pr::client::Anchor` (UI module interface).
`Default = SouthWest`. -/
inductive Anchor : Type
  | north
  | northEast
  | east
  | southEast
  | south
  | southWest
  | west
  | northWest
  | center
deriving DecidableEq

/-- The `Centered` sentinel: `std::numeric_limits<i32>::min()`. -/
def Centered : Int := -2147483648

/-- A `pr::client::Position`: base point, pixel adjustments, anchor. -/
structure Position where
  baseX : Int
  baseY : Int
  xadjust : Int
  yadjust : Int
  anchor : Anchor
deriving DecidableEq

/-- `Position::Center(a)` = `{Centered, Centered, a}` (adjustments zero). -/
def Position.Center (a : Anchor) : Position :=
  ⟨Centered, Centered, 0, 0, a⟩

/-- The local lambda `Clamp` in `Position::relative`:
sentinel → centred on the axis (C++ truncating division);
negative → offset from the far edge; otherwise literal. -/
def Clamp (val obj_size total_size : Int) : Int :=
  if val = Centered then Int.tdiv (total_size - obj_size) 2
  else if val < 0 then total_size + val - obj_size
  else val

/-- `Position::relative(xy parent, Size parent_size, Size object_size)`.
Computes `x`/`y` from `Clamp` plus the adjustments, then applies the anchor
switch; the local lambda `Adjust` skips an axis whose base is `Centered`. -/
def Position.relative (p : Position) (parentX parentY sx sy objWd objHt : Int) :
    Int × Int :=
  let x := parentX + Clamp p.baseX objWd sx + p.xadjust
  let y := parentY + Clamp p.baseY objHt sy + p.yadjust
  let adjust := fun (xa ya : Int) =>
    ((if p.baseX = Centered then x else x - xa),
     (if p.baseY = Centered then y else y - ya))
  match p.anchor with
  | Anchor.north => adjust (Int.tdiv objWd 2) objHt
  | Anchor.northEast => adjust objWd objHt
  | Anchor.east => adjust objWd (Int.tdiv objHt 2)
  | Anchor.southEast => adjust objWd 0
  | Anchor.south => adjust (Int.tdiv objWd 2) 0
  | Anchor.southWest => (x, y)
  | Anchor.west => adjust 0 (Int.tdiv objHt 2)
  | Anchor.northWest => adjust 0 objHt
  | Anchor.center => adjust (Int.tdiv objWd 2) (Int.tdiv objHt 2)

/-- Horizontal anchor correction applied by the `switch` in
`Position::relative` (the `xa` argument passed to `Adjust`). -/
def anchorDx (a : Anchor) (w : Int) : Int :=
  match a with
  | Anchor.north => Int.tdiv w 2
  | Anchor.northEast => w
  | Anchor.east => w
  | Anchor.southEast => w
  | Anchor.south => Int.tdiv w 2
  | Anchor.southWest => 0
  | Anchor.west => 0
  | Anchor.northWest => 0
  | Anchor.center => Int.tdiv w 2

/-- Vertical anchor correction applied by the `switch` in
`Position::relative` (the `ya` argument passed to `Adjust`). -/
def anchorDy (a : Anchor) (h : Int) : Int :=
  match a with
  | Anchor.north => h
  | Anchor.northEast => h
  | Anchor.east => Int.tdiv h 2
  | Anchor.southEast => 0
  | Anchor.south => 0
  | Anchor.southWest => 0
  | Anchor.west => Int.tdiv h 2
  | Anchor.northWest => h
  | Anchor.center => Int.tdiv h 2

-- =============================================================================
--  Theorems for claims C2, C3, C4
-- =============================================================================

/-- Claim C2, counterexample: with the x base coordinate centred and
`xadjust = 5` in a width-100 container around a width-10 object at origin 0,
`Position::relative` resolves the x coordinate to `(100 - 10) / 2 + 5 = 50`,
not to the adjustment-independent value `45` the claim demands. -/
theorem C2_counterexample :
    (Position.relative ⟨Centered, 0, 5, 0, Anchor.southWest⟩ 0 0 100 0 10 0).1 = 50 ∧
    (50 : Int) ≠ 45 := by
  constructor
  · decide
  · decide

/-- Claim C2, amended: on an axis whose base coordinate is the `Centered`
sentinel the pixel adjustment is still applied: the resolved coordinate is
container origin plus `(containerSize - objectSize) / 2` (truncating
division) plus the adjustment, for every anchor.  What is skipped on a
centred axis is the anchor correction, not the adjustment. -/
theorem C2_centered_axis_adjustment (b xa ya : Int) (a : Anchor)
    (px py sx sy ow oh : Int) :
    (Position.relative ⟨Centered, b, xa, ya, a⟩ px py sx sy ow oh).1 =
      px + Int.tdiv (sx - ow) 2 + xa ∧
    (Position.relative ⟨b, Centered, xa, ya, a⟩ px py sx sy ow oh).2 =
      py + Int.tdiv (sy - oh) 2 + ya := by
  cases a <;> simp [Position.relative, Clamp]

/-- Claim C3, counterexample: `Position{0,0,Anchor::Center}` in a `200x100`
container with a `50x20` object resolves to `(-25, -10)` (the base `(0,0)` is
literal, and the `Center` anchor subtracts half the object extents), not to
`(75, 40)` as the claim states; moreover the centred-sentinel division
truncates toward zero rather than flooring: with container width 9 and
object width 20 the centred x coordinate is `-5`, while the floor of
`(9 - 20) / 2` is `-6`. -/
theorem C3_counterexample :
    Position.relative ⟨0, 0, 0, 0, Anchor.center⟩ 0 0 200 100 50 20 = (-25, -10) ∧
    ((-25 : Int), (-10 : Int)) ≠ ((75 : Int), (40 : Int)) ∧
    (Position.relative ⟨Centered, 0, 0, 0, Anchor.southWest⟩ 0 0 9 0 20 0).1 = -5 ∧
    (-5 : Int) ≠ Int.fdiv (9 - 20) 2 := by
  refine ⟨by decide, by decide, by decide, by decide⟩

/-- Claim C3, amended: for every anchor value and every axis,
`Position::relative` resolves the base coordinate as follows: the `Centered`
sentinel yields `(containerSize - objectSize) / 2` with truncating (not
flooring) integer division, a negative value yields
`containerSize + base - objectSize`, and any other value is used literally;
the container origin, the adjustment, and (on non-centred axes) the anchor
correction are then added.  In particular `Position{0,0,Anchor::Center}`
inside a `200x100` container with a `50x20` object resolves to `(-25, -10)`,
and it is `Position::Center()` (the centred sentinel on both axes) that
resolves to `(75, 40)` there. -/
theorem C3_base_coordinate_resolution :
    (∀ (bx bY xa ya : Int) (a : Anchor) (px py sx sy ow oh : Int),
      Position.relative ⟨bx, bY, xa, ya, a⟩ px py sx sy ow oh =
        (px + (if bx = Centered then Int.tdiv (sx - ow) 2
               else if bx < 0 then sx + bx - ow else bx) + xa -
           (if bx = Centered then 0 else anchorDx a ow),
         py + (if bY = Centered then Int.tdiv (sy - oh) 2
               else if bY < 0 then sy + bY - oh else bY) + ya -
           (if bY = Centered then 0 else anchorDy a oh))) ∧
    Position.relative ⟨0, 0, 0, 0, Anchor.center⟩ 0 0 200 100 50 20 = (-25, -10) ∧
    Position.relative (Position.Center Anchor.southWest) 0 0 200 100 50 20 = (75, 40) := by
  refine ⟨?_, by decide, by decide⟩
  intro bx bY xa ya a px py sx sy ow oh
  cases a <;>
    simp only [Position.relative, Clamp, anchorDx, anchorDy] <;>
    by_cases hx : bx = Centered <;>
    by_cases hy : bY = Centered <;>
    simp [hx, hy]

/-- Claim C4: on any axis whose base coordinate is the `Centered` sentinel
the anchor correction for that axis is skipped; in particular
`Position::Center()` resolved with any of the nine anchor values yields the
same point as with `Anchor::SouthWest`, for every container origin,
container size and object size. -/
theorem C4_centered_axis_ignores_anchor (a : Anchor) (px py sx sy ow oh : Int) :
    (∀ b xa ya,
      (Position.relative ⟨Centered, b, xa, ya, a⟩ px py sx sy ow oh).1 =
      (Position.relative ⟨Centered, b, xa, ya, Anchor.southWest⟩ px py sx sy ow oh).1) ∧
    (∀ b xa ya,
      (Position.relative ⟨b, Centered, xa, ya, a⟩ px py sx sy ow oh).2 =
      (Position.relative ⟨b, Centered, xa, ya, Anchor.southWest⟩ px py sx sy ow oh).2) ∧
    Position.relative (Position.Center a) px py sx sy ow oh =
      Position.relative (Position.Center Anchor.southWest) px py sx sy ow oh := by
  refine ⟨?_, ?_, ?_⟩ <;> cases a <;>
    simp [Position.relative, Position.Center, Clamp]

-- =============================================================================
--  TextEdit: cursor index → pixel offset (TextEdit::draw)
-- =============================================================================

/-- A `ShapedText::Cluster`: logical character index and pixel x offset. -/
structure Cluster where
  index : Int
  xoffs : Int
deriving DecidableEq

/-- Model of `i32(std::lerp(a, b, f32(num) / f32(den)))` for `den ≠ 0`:
the exact rational `a + (b - a) * num / den = (a * den + (b - a) * num) / den`
truncated toward zero (both the C++ float-to-int conversion and
`Int.tdiv` truncate toward zero). -/
def lerpTrunc (a b num den : Int) : Int :=
  Int.tdiv (a * den + (b - a) * num) den

/-- The `cursor_offs` computation in `TextEdit::draw`: `cursor == 0` → `0`;
`cursor == text.size()` → `label.width`; otherwise `lower_bound` over the
clusters by index (rendered for the sorted cluster list as
`takeWhile`/`dropWhile` on `index < cursor`), with `prev = std::prev(it)`;
an exact cluster yields its `xoffs`, otherwise interpolate between `prev`
and the found cluster, or between `prev` and the virtual terminal cluster
`(text.size(), label.width)` when `it == clusters.end()`.  The case where
`lower_bound` returns `clusters.begin()` is undefined behaviour in the C++
(`std::prev` of `begin`); it is unreachable under the shaping contract
(first cluster index 0, cursor ≠ 0) and modelled as `0`. -/
def cursorOffs (clusters : List Cluster) (textLen width cursor : Int) : Int :=
  if cursor = 0 then 0
  else if cursor = textLen then width
  else
    match (clusters.takeWhile (fun cl => cl.index < cursor)).getLast?,
          clusters.dropWhile (fun cl => cl.index < cursor) with
    | some prev, it :: _ =>
        if it.index = cursor then it.xoffs
        else lerpTrunc prev.xoffs it.xoffs (cursor - prev.index) (it.index - prev.index)
    | some prev, [] =>
        lerpTrunc prev.xoffs width (cursor - prev.index) (textLen - prev.index)
    | none, _ => 0

-- =============================================================================
--  TextEdit: click position → cursor index (TextEdit::event_click)
-- =============================================================================

/-- `std::clamp(v, lo, hi)`. -/
def cppClamp (v lo hi : Int) : Int :=
  if v < lo then lo else if hi < v then hi else v

/-- The cluster walk in `TextEdit::event_click`.  `fuel` tracks
`text.size() - cursor` so that `fuel = 0` is exactly the loop exit
condition `cursor >= i32(text.size())`; the other exit is `it ==
clusters.end()`.  The interpolation branch divides by
`f32(it->index - prev_i)`; when that difference is zero the C++ divides by
zero and converts the resulting NaN to `i32` (undefined behaviour), which
is modelled as `none`. -/
def clickLoop (mx x : Int) :
    Nat → List Cluster → Option Cluster → Int → Int → Option Int
  | 0, _, _, cursor, _ => some cursor
  | _ + 1, [], _, cursor, _ => some cursor
  | fuel + 1, it :: rest, prev, cursor, d =>
      let xoffs? : Option Int :=
        if cursor = it.index then some it.xoffs
        else
          let px := (prev.map Cluster.xoffs).getD 0
          let pi := (prev.map Cluster.index).getD 0
          if it.index - pi = 0 then none
          else some (lerpTrunc px it.xoffs (cursor - pi) (it.index - pi))
      match xoffs? with
      | none => none
      | some xoffs =>
          let nd := |x + xoffs - mx|
          if nd > d then some (cursor - 1)
          else if cursor + 1 > it.index then
            clickLoop mx x fuel rest (some it) (cursor + 1) nd
          else
            clickLoop mx x fuel (it :: rest) (some it) (cursor + 1) nd

/-- `TextEdit::event_click` cursor computation: `mx` is the mouse x
position, `x0` the text's left edge (`TextPos(label).x`), `width` the
shaped text width, `textLen` = `text.size()`.  Returns the new cursor, or
`none` when the C++ runs into the NaN-to-int conversion described at
`clickLoop`. -/
def eventClickCursor (clusters : List Cluster) (textLen width x0 mx : Int) :
    Option Int :=
  if mx < x0 then some 0
  else if mx > x0 + width then some textLen
  else if clusters.length < 2 then some 0
  else
    (clickLoop mx x0 textLen.toNat clusters none 0 (|x0 - mx|)).map
      (fun c => cppClamp c 0 textLen)

-- Sanity checks against the spec's worked examples and hand-traced runs.
example : cursorOffs [⟨0, 0⟩] 2 10 1 = 5 := by decide
example : cursorOffs [⟨0, 0⟩, ⟨1, 10⟩, ⟨2, 20⟩, ⟨3, 30⟩] 3 30 2 = 20 := by decide
example : cursorOffs [⟨0, 0⟩, ⟨3, 30⟩] 4 40 2 = 20 := by decide
example : eventClickCursor [⟨0, 0⟩, ⟨1, 10⟩, ⟨2, 20⟩, ⟨3, 30⟩] 3 30 0 12 = some 1 := by decide
example : eventClickCursor [⟨0, 0⟩, ⟨1, 10⟩] 2 20 0 (-3) = some 0 := by decide
example : eventClickCursor [⟨0, 0⟩, ⟨3, 30⟩] 4 40 0 25 = none := by decide

-- =============================================================================
--  List lemmas shared by the cursor-mapping proofs
-- =============================================================================

/-- The head of `dropWhile p` is the first element on which `p` fails. -/
theorem head?_dropWhile_eq_find? {α : Type} (p : α → Bool) (l : List α) :
    (l.dropWhile p).head? = l.find? (fun x => !(p x)) := by
  induction l with
  | nil => rfl
  | cons a t ih =>
      by_cases h : p a
      · simpa [List.dropWhile_cons_of_pos h, List.find?_cons, h] using ih
      · simp [List.dropWhile_cons_of_neg h, List.find?_cons,
          Bool.eq_false_iff.mpr h]

/-- When the predicate is downward closed along the list order,
`takeWhile` and `filter` agree. -/
theorem takeWhile_eq_filter_of_pairwise {α : Type} {p : α → Bool} {l : List α}
    (h : l.Pairwise (fun a b => p b = true → p a = true)) :
    l.takeWhile p = l.filter p := by
  induction l with
  | nil => rfl
  | cons a t ih =>
      rcases List.pairwise_cons.mp h with ⟨ha, ht⟩
      by_cases hpa : p a
      · simp [List.takeWhile_cons_of_pos hpa, List.filter_cons, hpa, ih ht]
      · have hnil : t.filter p = [] :=
          List.filter_eq_nil_iff.mpr fun b hb hpb => hpa (ha b hb hpb)
        simp [List.takeWhile_cons_of_neg hpa, List.filter_cons, hpa, hnil]

/-- In a list strictly sorted by `index`, dropping the clusters with
`index < c` exposes a member of index exactly `c` as the head. -/
theorem head?_dropWhile_of_mem {c : Int} {l : List Cluster}
    (hs : l.Pairwise (fun u v => u.index < v.index)) {x : Cluster}
    (hx : x ∈ l) (hxc : x.index = c) :
    (l.dropWhile (fun cl => cl.index < c)).head? = some x := by
  induction l with
  | nil => cases hx
  | cons a t ih =>
      rcases List.pairwise_cons.mp hs with ⟨ha, ht⟩
      rcases List.mem_cons.mp hx with rfl | hxt
      · simp [List.dropWhile_cons, hxc]
      · have hax : a.index < c := hxc ▸ ha x hxt
        simpa [List.dropWhile_cons, hax] using ih ht hxt

/-- Bridge between the loop predicate `index < c` of the implementation and
the spec's "first cluster with `index >= c`". -/
theorem not_lt_pred_eq_le_pred (c : Int) :
    (fun x : Cluster => !(decide (x.index < c))) =
      (fun x : Cluster => decide (c ≤ x.index)) := by
  funext x
  simp only [← decide_not, decide_eq_decide]
  omega

-- =============================================================================
--  Theorem for claim C5
-- =============================================================================

/-- Claim C5: for a cluster list strictly sorted ascending by index whose
first cluster has index 0, text length `N`, and cursor `c` in `[0, N]`, the
`TextEdit` cursor-to-pixel mapping returns `0` at `c = 0`, the shaped width
at `c = N`, the `xoffs` of a cluster of index exactly `c` when one exists,
and otherwise interpolates linearly between the last cluster with
`index < c` (the previous cluster) and the first cluster with `index ≥ c`
(the bracketing cluster), the bracketing cluster being the virtual terminal
cluster `(N, width)` when no cluster has `index ≥ c`.  In particular,
clusters `[(0,0)]`, length 2, width 10 map cursor 1 to offset 5. -/
theorem C5_cursor_to_pixel (a : Cluster) (t : List Cluster) (N width c : Int)
    (hs : (a :: t).Pairwise (fun u v => u.index < v.index))
    (ha : a.index = 0) (hc0 : 0 ≤ c) (hcN : c ≤ N) :
    (c = 0 → cursorOffs (a :: t) N width c = 0) ∧
    (c ≠ 0 → c = N → cursorOffs (a :: t) N width c = width) ∧
    (∀ x ∈ a :: t, x.index = c → c ≠ 0 → c ≠ N →
      cursorOffs (a :: t) N width c = x.xoffs) ∧
    (c ≠ 0 → c ≠ N → (∀ x ∈ a :: t, x.index ≠ c) →
      ∀ prev, ((a :: t).filter (fun x => x.index < c)).getLast? = some prev →
        (∀ it, (a :: t).find? (fun x => c ≤ x.index) = some it →
          cursorOffs (a :: t) N width c =
            lerpTrunc prev.xoffs it.xoffs (c - prev.index) (it.index - prev.index)) ∧
        ((a :: t).find? (fun x => c ≤ x.index) = none →
          cursorOffs (a :: t) N width c =
            lerpTrunc prev.xoffs width (c - prev.index) (N - prev.index))) ∧
    cursorOffs [⟨0, 0⟩] 2 10 1 = 5 := by
  have hpa : (fun cl : Cluster => decide (cl.index < c)) a = true → True := fun _ => trivial
  refine ⟨?_, ?_, ?_, ?_, by decide⟩
  · intro h0
    simp [cursorOffs, h0]
  · intro h0 hN
    subst hN
    simp [cursorOffs, h0]
  · intro x hx hxc h0 hN
    have hcpos : 0 < c := lt_of_le_of_ne hc0 (Ne.symm h0)
    have hD : ((a :: t).dropWhile (fun cl => cl.index < c)).head? = some x :=
      head?_dropWhile_of_mem hs hx hxc
    obtain ⟨rest, hDrop⟩ :
        ∃ rest, (a :: t).dropWhile (fun cl => cl.index < c) = x :: rest := by
      cases hE : (a :: t).dropWhile (fun cl => cl.index < c) with
      | nil => rw [hE] at hD; cases hD
      | cons y rest =>
          rw [hE] at hD
          have hyx : y = x := by simpa using hD
          subst hyx
          exact ⟨rest, rfl⟩
    have hpa2 : (fun cl : Cluster => decide (cl.index < c)) a = true := by
      simp [ha, hcpos]
    have hTake : (a :: t).takeWhile (fun cl => cl.index < c) =
        a :: t.takeWhile (fun cl => cl.index < c) :=
      List.takeWhile_cons_of_pos hpa2
    obtain ⟨prev, hL⟩ :
        ∃ prev, ((a :: t).takeWhile (fun cl => cl.index < c)).getLast? = some prev := by
      rw [hTake]
      have hns : (a :: t.takeWhile (fun cl => cl.index < c)).getLast?.isSome := by
        rw [List.getLast?_isSome]
        simp
      exact Option.isSome_iff_exists.mp hns
    unfold cursorOffs
    rw [if_neg h0, if_neg hN, hL, hDrop]
    simp [hxc]
  · intro h0 hN hnone prev hprev
    have hcpos : 0 < c := lt_of_le_of_ne hc0 (Ne.symm h0)
    have himp : (a :: t).Pairwise
        (fun u v => (fun cl : Cluster => decide (cl.index < c)) v = true →
          (fun cl : Cluster => decide (cl.index < c)) u = true) := by
      refine hs.imp ?_
      intro u v huv
      simp only [decide_eq_true_eq]
      omega
    have hTakeFilter : (a :: t).takeWhile (fun cl => cl.index < c) =
        (a :: t).filter (fun cl => cl.index < c) :=
      takeWhile_eq_filter_of_pairwise himp
    have hfind : ((a :: t).dropWhile (fun cl => cl.index < c)).head? =
        (a :: t).find? (fun x => decide (c ≤ x.index)) := by
      rw [head?_dropWhile_eq_find?, not_lt_pred_eq_le_pred]
    constructor
    · intro it hit
      have hD : ((a :: t).dropWhile (fun cl => cl.index < c)).head? = some it := by
        rw [hfind]; exact hit
      obtain ⟨rest, hDrop⟩ :
          ∃ rest, (a :: t).dropWhile (fun cl => cl.index < c) = it :: rest := by
        cases hE : (a :: t).dropWhile (fun cl => cl.index < c) with
        | nil => rw [hE] at hD; cases hD
        | cons y rest =>
            rw [hE] at hD
            have hyit : y = it := by simpa using hD
            subst hyit
            exact ⟨rest, rfl⟩
      have hitmem : it ∈ a :: t := List.mem_of_find?_eq_some hit
      have hitne : it.index ≠ c := hnone it hitmem
      unfold cursorOffs
      rw [if_neg h0, if_neg hN, hTakeFilter, hprev, hDrop]
      simp [hitne]
    · intro hnofind
      have hD : ((a :: t).dropWhile (fun cl => cl.index < c)).head? = none := by
        rw [hfind]; exact hnofind
      have hDrop : (a :: t).dropWhile (fun cl => cl.index < c) = [] := by
        cases hE : (a :: t).dropWhile (fun cl => cl.index < c) with
        | nil => rfl
        | cons y rest => rw [hE] at hD; cases hD
      unfold cursorOffs
      rw [if_neg h0, if_neg hN, hTakeFilter, hprev, hDrop]

/-- Witness for C5 at the concrete ligature input of the claim. -/
theorem C5_cursor_to_pixel_witness : cursorOffs [⟨0, 0⟩] 2 10 1 = 5 :=
  (C5_cursor_to_pixel ⟨0, 0⟩ [] 2 10 1 (by simp) rfl (by decide) (by decide)).2.2.2.2

-- =============================================================================
--  Theorems for claims C6 and C9
-- =============================================================================

/-- Claim C6: for every non-empty cluster configuration,
`TextEdit::event_click` sets the cursor to 0 when the click is left of the
text's left edge `x0`, and to the text length when it is right of the
text's right edge `x0 + width`. -/
theorem C6_click_outside_text (clusters : List Cluster)
    (textLen width x0 mx : Int) (_hne : clusters ≠ []) (hw : 0 ≤ width) :
    (mx < x0 → eventClickCursor clusters textLen width x0 mx = some 0) ∧
    (mx > x0 + width → eventClickCursor clusters textLen width x0 mx = some textLen) := by
  constructor
  · intro h
    simp [eventClickCursor, h]
  · intro h
    have h1 : ¬ mx < x0 := by omega
    simp [eventClickCursor, h1, h]

/-- Witness for C6 on a concrete two-cluster configuration. -/
theorem C6_click_outside_text_witness :
    eventClickCursor [⟨0, 0⟩, ⟨1, 10⟩] 2 20 0 (-3) = some 0 ∧
    eventClickCursor [⟨0, 0⟩, ⟨1, 10⟩] 2 20 0 25 = some 2 := by
  constructor
  · exact (C6_click_outside_text [⟨0, 0⟩, ⟨1, 10⟩] 2 20 0 (-3)
      (by simp) (by decide)).1 (by decide)
  · exact (C6_click_outside_text [⟨0, 0⟩, ⟨1, 10⟩] 2 20 0 25
      (by simp) (by decide)).2 (by decide)

/-- Claim C9: evaluation of `TextEdit::event_click` at the failing input.
The clusters `[(0,0),(3,30)]` with text length 4 are well formed (sorted
ascending, first index 0), yet a click at `mx = 25` (text from `x0 = 0`,
width 40) walks the candidate cursor to 2 inside the 3-character cluster
after `prev` has been re-pointed at the current cluster, so the
interpolation divides by `f32(it->index - prev_i) = 0` and converts the
resulting NaN to `i32` — undefined behaviour, modelled as `none`. -/
theorem C9_event_click_failing_input :
    eventClickCursor [⟨0, 0⟩, ⟨3, 30⟩] 4 40 0 25 = none := by decide

-- =============================================================================
--  CardGroup autoscale layout (CardGroup::refresh)
-- =============================================================================

/-- `Scale::NumScales` (`OtherPlayer = 0`, `Field = 1`, `Large = 2`). -/
def numScales : Nat := 3

/-- `Card::CardSize[s].wd` for the three scales. -/
def cardWidth : Nat → Int
  | 0 => 60
  | 1 => 120
  | _ => 240

/-- `Card::CardSize[s].ht` for the three scales. -/
def cardHeight : Nat → Int
  | 0 => 90
  | 1 => 180
  | _ => 360

/-- `CardGroup::CardGaps`. -/
def CardGaps : Nat → Int
  | 0 => 5
  | 1 => 10
  | _ => 20

/-- The row width evaluated inside the autoscale loop:
`cards.size() * Card::CardSize[s].wd + (cards.size() - 1) * CardGaps[s]`. -/
def rowWidth (count s : Nat) : Int :=
  (count : Int) * cardWidth s + ((count - 1 : Nat) : Int) * CardGaps s

/-- The autoscale `while` loop of `CardGroup::refresh`: starting from the
largest scale, step down while `s != scale` and the row at `s` does not fit
strictly below the available width.  Modelled for configured scales
`scale ≤ NumScales - 1` (the valid `Scale` enumerators), for which the C++
loop can only stop at `s == scale` or at a fitting level. -/
def autoscaleLoop (count scaleProp : Nat) (width : Int) : Nat → Nat
  | 0 => 0
  | s + 1 =>
      if s + 1 = scaleProp then s + 1
      else if rowWidth count (s + 1) < width then s + 1
      else autoscaleLoop count scaleProp width s

/-- The layout loop of `CardGroup::refresh`: running x offset after laying
out `n` cards at scale `s` (each card advances `x` by
`Card::CardSize[s].wd + CardGaps[s]`). -/
def layoutX (s : Nat) : Nat → Int
  | 0 => 0
  | n + 1 => layoutX s n + (cardWidth s + CardGaps s)

/-- The `CardGroup` state consulted by `refresh`: number of cards, the
`scale`, `max_width` and `autoscale` properties, and the current
bounding-box width used as fallback available width. -/
structure CardGroup where
  count : Nat
  scale : Nat
  max_width : Int
  autoscale : Bool
  bbWidth : Int
deriving DecidableEq

/-- `CardGroup::refresh`: `none` models the early return on an empty
group; otherwise the selected scale together with the new bounding-box
size `(x - CardGaps[s], Card::CardSize[s].ht)`. -/
def CardGroup.refresh (g : CardGroup) : Option (Nat × Int × Int) :=
  if g.count = 0 then none
  else
    let width := if g.max_width ≠ 0 then g.max_width else g.bbWidth
    let s := if g.autoscale then autoscaleLoop g.count g.scale width (numScales - 1)
             else g.scale
    let x := layoutX s g.count
    some (s, x - CardGaps s, cardHeight s)

example : CardGroup.refresh ⟨4, 0, 300, true, 0⟩ = some (0, 255, 90) := by decide
example : CardGroup.refresh ⟨4, 1, 300, true, 0⟩ = some (1, 510, 180) := by decide

/-- The accumulated layout offset is `n` times the card-plus-gap pitch. -/
theorem layoutX_eq (s n : Nat) :
    layoutX s n = (n : Int) * (cardWidth s + CardGaps s) := by
  induction n with
  | zero => simp [layoutX]
  | succ k ih =>
      rw [layoutX, ih]
      push_cast
      ring

/-- For a non-empty group the final offset minus one trailing gap is the
row width at the selected scale. -/
theorem layoutX_sub_gap (s count : Nat) (hc : 1 ≤ count) :
    layoutX s count - CardGaps s = rowWidth count s := by
  obtain ⟨k, rfl⟩ : ∃ k, count = k + 1 := ⟨count - 1, by omega⟩
  rw [layoutX_eq, rowWidth]
  have hk : (k + 1 - 1 : Nat) = k := by omega
  rw [hk]
  push_cast
  ring

/-- Characterisation of the autoscale loop for valid configured scales:
the result lies in `[scale, NumScales - 1]`, it either fits strictly or is
the configured scale itself, and no larger level fits. -/
theorem autoscaleLoop_spec (count scaleProp : Nat) (W : Int)
    (hs : scaleProp ≤ 2) :
    scaleProp ≤ autoscaleLoop count scaleProp W 2 ∧
    autoscaleLoop count scaleProp W 2 ≤ 2 ∧
    (rowWidth count (autoscaleLoop count scaleProp W 2) < W ∨
      autoscaleLoop count scaleProp W 2 = scaleProp) ∧
    ∀ u, autoscaleLoop count scaleProp W 2 < u → u ≤ 2 →
      ¬ rowWidth count u < W := by
  have e2 : autoscaleLoop count scaleProp W 2 =
      if 2 = scaleProp then 2
      else if rowWidth count 2 < W then 2
      else autoscaleLoop count scaleProp W 1 := rfl
  have e1 : autoscaleLoop count scaleProp W 1 =
      if 1 = scaleProp then 1
      else if rowWidth count 1 < W then 1
      else autoscaleLoop count scaleProp W 0 := rfl
  have e0 : autoscaleLoop count scaleProp W 0 = 0 := rfl
  rw [e2, e1, e0]
  split_ifs with h1 h2 h3 h4
  · exact ⟨by omega, by omega, Or.inr h1,
      fun u hu1 hu2 => absurd hu2 (by omega)⟩
  · exact ⟨by omega, by omega, Or.inl h2,
      fun u hu1 hu2 => absurd hu2 (by omega)⟩
  · refine ⟨by omega, by omega, Or.inr h3, ?_⟩
    intro u hu1 hu2
    have hu : u = 2 := by omega
    rw [hu]
    exact h2
  · refine ⟨by omega, by omega, Or.inl h4, ?_⟩
    intro u hu1 hu2
    have hu : u = 2 := by omega
    rw [hu]
    exact h2
  · refine ⟨by omega, by omega, Or.inr (by omega), ?_⟩
    intro u hu1 hu2
    have hu : u = 1 ∨ u = 2 := by omega
    rcases hu with rfl | rfl
    · exact h4
    · exact h2

-- =============================================================================
--  Theorems for claim C1
-- =============================================================================

/-- Claim C1, counterexample: a `CardGroup` of 4 cards with autoscaling
enabled, `max_width = 300` and the default configured scale `Field` (= 1)
is laid out at scale 1 with row width 510: the autoscale loop stops at the
configured scale, it does not descend to the smallest level 0 with row
width 255 as the claim demands. -/
theorem C1_counterexample :
    CardGroup.refresh ⟨4, 1, 300, true, 0⟩ = some (1, 510, 180) ∧
    some ((1 : Nat), (510 : Int), (180 : Int)) ≠
      some ((0 : Nat), (255 : Int), (90 : Int)) := by
  exact ⟨by decide, by decide⟩

/-- Claim C1, amended: for a non-empty autoscaling `CardGroup` whose
configured scale is a valid `Scale`, `refresh` evaluates scale levels from
the largest downward but stops the descent at the configured `scale`
property: it selects the largest level in `[scale, NumScales - 1]` whose
row width `count * cardWidth(level) + (count - 1) * gap(level)` is strictly
less than the available width (`max_width` if nonzero, else the container
width), and uses `scale` itself if none fits; the bounding-box width
becomes the row width at the selected level.  With configured scale 0, 4
cards and available width 300, the selected scale is 0 and the width 255. -/
theorem C1_autoscale_selection (count scaleProp : Nat) (mw bb : Int)
    (hc : 1 ≤ count) (hs : scaleProp ≤ 2) :
    (∃ s,
      CardGroup.refresh ⟨count, scaleProp, mw, true, bb⟩ =
        some (s, rowWidth count s, cardHeight s) ∧
      scaleProp ≤ s ∧ s ≤ 2 ∧
      (rowWidth count s < (if mw ≠ 0 then mw else bb) ∨ s = scaleProp) ∧
      (∀ u, s < u → u ≤ 2 →
        ¬ rowWidth count u < (if mw ≠ 0 then mw else bb))) ∧
    CardGroup.refresh ⟨4, 0, 300, true, 0⟩ = some (0, 255, 90) := by
  constructor
  · obtain ⟨hs1, hs2, hs3, hs4⟩ :=
      autoscaleLoop_spec count scaleProp (if mw ≠ 0 then mw else bb) hs
    refine ⟨autoscaleLoop count scaleProp (if mw ≠ 0 then mw else bb) 2,
      ?_, hs1, hs2, hs3, hs4⟩
    have hcz : ¬ count = 0 := by omega
    simp only [CardGroup.refresh, hcz, if_false, if_true, numScales]
    rw [layoutX_sub_gap _ _ hc]
  · decide

/-- Witness for C1 (amended) at the concrete input of the claim. -/
theorem C1_autoscale_selection_witness :
    CardGroup.refresh ⟨4, 0, 300, true, 0⟩ = some (0, 255, 90) :=
  (C1_autoscale_selection 4 0 300 0 (by decide) (by decide)).2

-- =============================================================================
--  Screen::refresh (claim C7)
-- =============================================================================

/-- A `Screen` child as consulted by `Screen::refresh`: the `visible` and
`needs_refresh` flags plus an abstract payload standing for the bounding
box and any other state the child's virtual `refresh` recomputes. -/
structure SWidget (α : Type) where
  visible : Bool
  needs_refresh : Bool
  payload : α
deriving DecidableEq

/-- `Screen::refresh`: if the cached `prev_size` equals the renderer size,
exactly the children whose `needs_refresh` flag is set are refreshed (flag
cleared, visibility ignored); otherwise every visible or flagged child is
refreshed and the cached size is updated.  `f` stands for the child's
virtual `refresh`; the result is the new cached size and the new
children.  (The screen's own bounding box, set unconditionally to the
renderer size, carries no further state and is omitted.) -/
def Screen.refresh {α : Type} (f : α → α) (rsize prev : Int × Int)
    (children : List (SWidget α)) : (Int × Int) × List (SWidget α) :=
  if prev = rsize then
    (prev, children.map fun e =>
      if e.needs_refresh then ⟨e.visible, false, f e.payload⟩ else e)
  else
    (rsize, children.map fun e =>
      if e.visible || e.needs_refresh then ⟨e.visible, false, f e.payload⟩ else e)

/-- Claim C7: if the container size equals the size cached at the previous
`Screen::refresh`, only children whose `needs_refresh` flag is set are
refreshed (and the flag cleared), regardless of visibility, and all other
children are left unchanged; if the size changed, every visible child and
every flagged child is refreshed and the cached size is updated. -/
theorem C7_screen_refresh {α : Type} (f : α → α) (rsize prev : Int × Int)
    (children : List (SWidget α)) :
    (prev = rsize →
      (Screen.refresh f rsize prev children).1 = prev ∧
      ∀ (i : Nat) (e : SWidget α), children[i]? = some e →
        (Screen.refresh f rsize prev children).2[i]? =
          some (if e.needs_refresh then ⟨e.visible, false, f e.payload⟩ else e)) ∧
    (prev ≠ rsize →
      (Screen.refresh f rsize prev children).1 = rsize ∧
      ∀ (i : Nat) (e : SWidget α), children[i]? = some e →
        (Screen.refresh f rsize prev children).2[i]? =
          some (if e.visible || e.needs_refresh
                then ⟨e.visible, false, f e.payload⟩ else e)) := by
  constructor
  · intro h
    refine ⟨by simp [Screen.refresh, h], ?_⟩
    intro i e he
    simp [Screen.refresh, h, List.getElem?_map, he]
  · intro h
    refine ⟨by simp [Screen.refresh, h], ?_⟩
    intro i e he
    simp [Screen.refresh, h, List.getElem?_map, he]

/-- Witness for C7: a fast-path refresh (size unchanged) on one flagged
invisible child and one unflagged visible child refreshes exactly the
flagged one. -/
theorem C7_screen_refresh_witness :
    (Screen.refresh (fun v : Int => v + 1) (10, 10) (10, 10)
        [⟨false, true, 0⟩, ⟨true, false, 7⟩]).2[0]? =
      some ⟨false, false, (0 : Int) + 1⟩ ∧
    (Screen.refresh (fun v : Int => v + 1) (10, 10) (10, 10)
        [⟨false, true, 0⟩, ⟨true, false, 7⟩]).2[1]? =
      some ⟨true, false, (7 : Int)⟩ := by
  constructor
  · exact ((C7_screen_refresh (fun v : Int => v + 1) (10, 10) (10, 10)
      [⟨false, true, 0⟩, ⟨true, false, 7⟩]).1 rfl).2 0 ⟨false, true, 0⟩ rfl
  · exact ((C7_screen_refresh (fun v : Int => v + 1) (10, 10) (10, 10)
      [⟨false, true, 0⟩, ⟨true, false, 7⟩]).1 rfl).2 1 ⟨true, false, 7⟩ rfl

-- =============================================================================
--  Screen::tick (claims C8, C10)
-- =============================================================================

/-- A widget as consulted by `Screen::tick`: the transient and persistent
flags, the bounding box `(origin, size)`, and counters recording how many
`event_click` / `event_input` callbacks the widget has received (the
handlers themselves are virtual and opaque to the tick loop). -/
structure TWidget where
  hovered : Bool
  selectable : Bool
  selected : Bool
  visible : Bool
  box : (Int × Int) × (Int × Int)
  clicks : Nat
  inputs : Nat
deriving DecidableEq

/-- Modelled from the spec: `AABB::contains(point)` (the `AABB` type lives
in `pr.utils`, which is not among the sources) — "axis-aligned box =
origin + size; `AABB.contains(point)` used for hit-testing" (§3): the
point lies within `[origin, origin + size)` on both axes. -/
def containsPt (box : (Int × Int) × (Int × Int)) (p : Int × Int) : Bool :=
  decide (box.1.1 ≤ p.1 ∧ p.1 < box.1.1 + box.2.1 ∧
          box.1.2 ≤ p.2 ∧ p.2 < box.1.2 + box.2.2)

/-- Effect of one `Screen::tick` loop iteration on the visited widget:
reset transient properties, recompute `hovered`, and dispatch
`event_click` on a hovered widget during a click tick. -/
def tickOne (ml : Bool) (pos : Int × Int) (e : TWidget) : TWidget :=
  if e.visible then
    let e1 : TWidget := {e with hovered := containsPt e.box pos, selected := false}
    if e1.hovered && ml then {e1 with clicks := e1.clicks + 1} else e1
  else e

/-- The `Screen::tick` loop over the children: only visible widgets are
processed; a hovered widget on a click tick becomes the selection if it is
selectable and receives `event_click`.  The `Nat` argument is the index of
the next child, so that the carried selection is an index into the
original list (the C++ carries a pointer). -/
def tickPass (ml : Bool) (pos : Int × Int) :
    Nat → List TWidget → Option Nat → List TWidget × Option Nat
  | _, [], sel => ([], sel)
  | i, e :: rest, sel =>
      if e.visible then
        let e1 : TWidget := {e with hovered := containsPt e.box pos, selected := false}
        if e1.hovered && ml then
          let sel1 := if e1.selectable then some i else sel
          let r := tickPass ml pos (i + 1) rest sel1
          ({e1 with clicks := e1.clicks + 1} :: r.1, r.2)
        else
          let r := tickPass ml pos (i + 1) rest sel
          (e1 :: r.1, r.2)
      else
        let r := tickPass ml pos (i + 1) rest sel
        (e :: r.1, r.2)

/-- `Screen::tick`: clear the selection if there was a left click, walk
the visible children, then re-assert the selected widget's `selected` flag
and dispatch `event_input` to it (on every tick). -/
def Screen.tick (ml : Bool) (pos : Int × Int) (children : List TWidget)
    (sel : Option Nat) : List TWidget × Option Nat :=
  let sel0 := if ml then none else sel
  let r := tickPass ml pos 0 children sel0
  match r.2 with
  | some i =>
      match r.1[i]? with
      | some e => (r.1.set i {e with selected := true, inputs := e.inputs + 1}, some i)
      | none => (r.1, some i)
  | none => (r.1, none)

/-- The widget updates of the tick loop are per-widget and independent of
the carried selection and index. -/
theorem tickPass_fst (ml : Bool) (pos : Int × Int) (i : Nat)
    (l : List TWidget) (sel : Option Nat) :
    (tickPass ml pos i l sel).1 = l.map (tickOne ml pos) := by
  induction l generalizing i sel with
  | nil => rfl
  | cons e rest ih =>
      simp only [tickPass, tickOne, List.map_cons]
      split_ifs <;> simp [ih]

/-- The selection produced by the tick loop is either the carried one or
the index of a visible, hovered, selectable widget on a click tick. -/
theorem tickPass_sel (ml : Bool) (pos : Int × Int) (i : Nat)
    (l : List TWidget) (sel : Option Nat) :
    (tickPass ml pos i l sel).2 = sel ∨
    ∃ k e, l[k]? = some e ∧ (tickPass ml pos i l sel).2 = some (i + k) ∧
      e.visible = true ∧ containsPt e.box pos = true ∧ ml = true ∧
      e.selectable = true := by
  induction l generalizing i sel with
  | nil => left; rfl
  | cons e rest ih =>
      by_cases hv : e.visible
      · by_cases hh : containsPt e.box pos && ml
        · by_cases hsel : e.selectable
          · have hstep : (tickPass ml pos i (e :: rest) sel).2 =
                (tickPass ml pos (i + 1) rest (some i)).2 := by
              simp only [tickPass]
              simp [hv, hh, hsel]
            rcases ih (i + 1) (some i) with hcar | ⟨k, x, hk, hres, hx⟩
            · right
              refine ⟨0, e, by simp, ?_, hv, ?_, ?_, hsel⟩
              · rw [hstep, hcar]
                simp
              · exact (Bool.and_elim_left hh)
              · exact (Bool.and_elim_right hh)
            · right
              refine ⟨k + 1, x, by simpa using hk, ?_, hx.1, hx.2.1, hx.2.2.1, hx.2.2.2⟩
              rw [hstep, hres]
              have : i + 1 + k = i + (k + 1) := by omega
              rw [this]
          · have hstep : (tickPass ml pos i (e :: rest) sel).2 =
                (tickPass ml pos (i + 1) rest sel).2 := by
              simp only [tickPass]
              simp [hv, hh, hsel]
            rcases ih (i + 1) sel with hcar | ⟨k, x, hk, hres, hx⟩
            · left; rw [hstep, hcar]
            · right
              refine ⟨k + 1, x, by simpa using hk, ?_, hx.1, hx.2.1, hx.2.2.1, hx.2.2.2⟩
              rw [hstep, hres]
              have : i + 1 + k = i + (k + 1) := by omega
              rw [this]
        · have hstep : (tickPass ml pos i (e :: rest) sel).2 =
              (tickPass ml pos (i + 1) rest sel).2 := by
            simp only [tickPass]
            simp [hv, hh]
          rcases ih (i + 1) sel with hcar | ⟨k, x, hk, hres, hx⟩
          · left; rw [hstep, hcar]
          · right
            refine ⟨k + 1, x, by simpa using hk, ?_, hx.1, hx.2.1, hx.2.2.1, hx.2.2.2⟩
            rw [hstep, hres]
            have : i + 1 + k = i + (k + 1) := by omega
            rw [this]
      · have hstep : (tickPass ml pos i (e :: rest) sel).2 =
            (tickPass ml pos (i + 1) rest sel).2 := by
          simp only [tickPass]
          simp [hv]
        rcases ih (i + 1) sel with hcar | ⟨k, x, hk, hres, hx⟩
        · left; rw [hstep, hcar]
        · right
          refine ⟨k + 1, x, by simpa using hk, ?_, hx.1, hx.2.1, hx.2.2.1, hx.2.2.2⟩
          rw [hstep, hres]
          have : i + 1 + k = i + (k + 1) := by omega
          rw [this]

/-- Without a click the tick loop never changes the selection. -/
theorem tickPass_sel_noclick (pos : Int × Int) (i : Nat) (l : List TWidget)
    (sel : Option Nat) : (tickPass false pos i l sel).2 = sel := by
  induction l generalizing i sel with
  | nil => rfl
  | cons e rest ih =>
      by_cases hv : e.visible
      · have hstep : (tickPass false pos i (e :: rest) sel).2 =
            (tickPass false pos (i + 1) rest sel).2 := by
          simp only [tickPass]
          simp [hv]
        rw [hstep]
        exact ih (i + 1) sel
      · have hstep : (tickPass false pos i (e :: rest) sel).2 =
            (tickPass false pos (i + 1) rest sel).2 := by
          simp only [tickPass]
          simp [hv]
        rw [hstep]
        exact ih (i + 1) sel

/-- The tick loop never touches the `event_input` counter. -/
theorem tickOne_inputs (ml : Bool) (pos : Int × Int) (e : TWidget) :
    (tickOne ml pos e).inputs = e.inputs := by
  simp only [tickOne]
  split_ifs <;> rfl

/-- The selection component of `Screen::tick` is exactly the one the loop
produces from the (possibly cleared) carried selection `s`. -/
theorem Screen.tick_snd (ml : Bool) (pos : Int × Int)
    (children : List TWidget) (sel s : Option Nat)
    (hs : (if ml then none else sel) = s) :
    (Screen.tick ml pos children sel).2 = (tickPass ml pos 0 children s).2 := by
  subst hs
  unfold Screen.tick
  cases h : (tickPass ml pos 0 children (if ml then none else sel)).2 with
  | none => simp [h]
  | some i =>
      cases h2 : (tickPass ml pos 0 children (if ml then none else sel)).1[i]? with
      | none => simp [h, h2]
      | some e => simp [h, h2]

/-- Index bound recovered from a successful indexed lookup. -/
theorem lt_length_of_getElem?_eq_some {α : Type} {l : List α} {i : Nat}
    {x : α} (h : l[i]? = some x) : i < l.length := by
  by_contra hcon
  push_neg at hcon
  rw [List.getElem?_eq_none hcon] at h
  cases h

/-- First component of `Screen::tick` when the pass selects nothing. -/
theorem Screen.tick_fst_of_none (ml : Bool) (pos : Int × Int)
    (children : List TWidget) (sel s : Option Nat)
    (hs : (if ml then none else sel) = s)
    (h : (tickPass ml pos 0 children s).2 = none) :
    (Screen.tick ml pos children sel).1 = (tickPass ml pos 0 children s).1 := by
  subst hs
  unfold Screen.tick
  simp [h]

/-- First component of `Screen::tick` when the pass selects a valid
index: that widget's `selected` flag is re-asserted and it receives
`event_input`. -/
theorem Screen.tick_fst_of_some (ml : Bool) (pos : Int × Int)
    (children : List TWidget) (sel s : Option Nat) (i : Nat) (x : TWidget)
    (hs : (if ml then none else sel) = s)
    (h : (tickPass ml pos 0 children s).2 = some i)
    (hx : (tickPass ml pos 0 children s).1[i]? = some x) :
    (Screen.tick ml pos children sel).1 =
      (tickPass ml pos 0 children s).1.set i
        {x with selected := true, inputs := x.inputs + 1} := by
  subst hs
  unfold Screen.tick
  simp [h, hx]

/-- First component of `Screen::tick` when the carried selection is out of
range (cannot happen in the C++, where the selection is a live pointer). -/
theorem Screen.tick_fst_of_some_none (ml : Bool) (pos : Int × Int)
    (children : List TWidget) (sel s : Option Nat) (i : Nat)
    (hs : (if ml then none else sel) = s)
    (h : (tickPass ml pos 0 children s).2 = some i)
    (hx : (tickPass ml pos 0 children s).1[i]? = none) :
    (Screen.tick ml pos children sel).1 = (tickPass ml pos 0 children s).1 := by
  subst hs
  unfold Screen.tick
  simp [h, hx]

-- =============================================================================
--  Theorems for claims C8 and C10
-- =============================================================================

/-- Claim C8: on a tick with a left click the selection is cleared before
the pass and re-set only to a visible widget that is hovered (its box
contains the mouse) and selectable; after the pass the selected widget (on
any tick, click or not) has its `selected` flag re-asserted and receives
an `event_input` callback; without a click the selection is carried over
unchanged. -/
theorem C8_tick_selection (ml : Bool) (pos : Int × Int)
    (children : List TWidget) (sel : Option Nat) :
    (∀ i : Nat, ml = true → (Screen.tick ml pos children sel).2 = some i →
      ∃ e, children[i]? = some e ∧ e.visible = true ∧ e.selectable = true ∧
        containsPt e.box pos = true) ∧
    (∀ (i : Nat) (e : TWidget),
      (Screen.tick ml pos children sel).2 = some i → children[i]? = some e →
      ∃ r, (Screen.tick ml pos children sel).1[i]? = some r ∧
        r.selected = true ∧ r.inputs = e.inputs + 1) ∧
    (ml = false → (Screen.tick ml pos children sel).2 = sel) := by
  refine ⟨?_, ?_, ?_⟩
  · intro i hml hres
    subst hml
    rw [Screen.tick_snd true pos children sel none rfl] at hres
    rcases tickPass_sel true pos 0 children none with hcar | ⟨k, x, hk, hres2, hx⟩
    · rw [hcar] at hres
      cases hres
    · rw [hres2] at hres
      have hik : i = k := by
        simpa using hres.symm
      subst hik
      exact ⟨x, hk, hx.1, hx.2.2.2, hx.2.1⟩
  · intro i e hres he
    have hr2 : (tickPass ml pos 0 children (if ml then none else sel)).2 = some i := by
      rw [← Screen.tick_snd ml pos children sel (if ml then none else sel) rfl]
      exact hres
    have hmi : (tickPass ml pos 0 children (if ml then none else sel)).1[i]? =
        some (tickOne ml pos e) := by
      rw [tickPass_fst]
      simp [List.getElem?_map, he]
    have hilen : i < (tickPass ml pos 0 children (if ml then none else sel)).1.length :=
      lt_length_of_getElem?_eq_some hmi
    set u := tickOne ml pos e with hu
    refine ⟨{u with selected := true, inputs := u.inputs + 1}, ?_, rfl, ?_⟩
    · rw [Screen.tick_fst_of_some ml pos children sel
        (if ml then none else sel) i u rfl hr2 hmi]
      rw [List.getElem?_set]
      simp [hilen]
    · show u.inputs + 1 = e.inputs + 1
      rw [hu, tickOne_inputs]
  · intro hml
    subst hml
    rw [Screen.tick_snd false pos children sel sel rfl]
    exact tickPass_sel_noclick pos 0 children sel

/-- Witness for C8: one visible selectable widget under the mouse becomes
the selection, is marked selected and receives one `event_input`. -/
theorem C8_tick_selection_witness :
    (∃ e, ([⟨false, true, false, true, ((0, 0), (10, 10)), 0, 0⟩] :
        List TWidget)[0]? = some e ∧ e.visible = true ∧ e.selectable = true ∧
        containsPt e.box (5, 5) = true) ∧
    (∃ r, (Screen.tick true (5, 5)
        [⟨false, true, false, true, ((0, 0), (10, 10)), 0, 0⟩] none).1[0]? =
          some r ∧ r.selected = true ∧ r.inputs = 0 + 1) := by
  constructor
  · exact (C8_tick_selection true (5, 5)
      [⟨false, true, false, true, ((0, 0), (10, 10)), 0, 0⟩] none).1 0 rfl (by decide)
  · exact (C8_tick_selection true (5, 5)
      [⟨false, true, false, true, ((0, 0), (10, 10)), 0, 0⟩] none).2.1 0
      ⟨false, true, false, true, ((0, 0), (10, 10)), 0, 0⟩ (by decide) rfl

/-- Claim C10: during a click tick every visible widget whose bounding box
contains the mouse position receives an `event_click` callback, selectable
or not. -/
theorem C10_click_dispatch (pos : Int × Int) (children : List TWidget)
    (sel : Option Nat) :
    ∀ (i : Nat) (e : TWidget), children[i]? = some e → e.visible = true →
      containsPt e.box pos = true →
      ∃ r, (Screen.tick true pos children sel).1[i]? = some r ∧
        r.clicks = e.clicks + 1 := by
  intro i e he hv hc
  have hone : (tickOne true pos e).clicks = e.clicks + 1 := by
    simp [tickOne, hv, hc]
  have hmi : (tickPass true pos 0 children none).1[i]? =
      some (tickOne true pos e) := by
    rw [tickPass_fst]
    simp [List.getElem?_map, he]
  cases hr2 : (tickPass true pos 0 children none).2 with
  | none =>
      refine ⟨tickOne true pos e, ?_, hone⟩
      rw [Screen.tick_fst_of_none true pos children sel none rfl hr2]
      exact hmi
  | some j =>
      cases hj : (tickPass true pos 0 children none).1[j]? with
      | none =>
          refine ⟨tickOne true pos e, ?_, hone⟩
          rw [Screen.tick_fst_of_some_none true pos children sel none j rfl hr2 hj]
          exact hmi
      | some x =>
          have hjlen : j < (tickPass true pos 0 children none).1.length :=
            lt_length_of_getElem?_eq_some hj
          by_cases hij : j = i
          · subst hij
            have hx : x = tickOne true pos e := by
              rw [hj] at hmi
              exact Option.some.inj hmi
            refine ⟨{x with selected := true, inputs := x.inputs + 1}, ?_, ?_⟩
            · rw [Screen.tick_fst_of_some true pos children sel none j x rfl hr2 hj]
              rw [List.getElem?_set]
              simp [hjlen]
            · show x.clicks = e.clicks + 1
              rw [hx, hone]
          · refine ⟨tickOne true pos e, ?_, hone⟩
            rw [Screen.tick_fst_of_some true pos children sel none j x rfl hr2 hj]
            rw [List.getElem?_set]
            simp [hij, hmi]

/-- Witness for C10: a visible but non-selectable widget under the mouse
still receives exactly one `event_click` on a click tick. -/
theorem C10_click_dispatch_witness :
    ∃ r, (Screen.tick true (5, 5)
      [⟨false, false, false, true, ((0, 0), (10, 10)), 0, 0⟩] none).1[0]? =
        some r ∧ r.clicks = 0 + 1 :=
  C10_click_dispatch (5, 5)
    [⟨false, false, false, true, ((0, 0), (10, 10)), 0, 0⟩] none 0
    ⟨false, false, false, true, ((0, 0), (10, 10)), 0, 0⟩ rfl rfl (by decide)
